import Mathlib

/-!
Shallow embedding of `model.py` from the smash-ranks repository: the document
types (`Match`, `AliasMapping`, `AliasMatch`, `Rating`, `Player`, `Tournament`,
`PendingTournament`) and their methods, translated field by field and branch by
branch from the Python source. MongoDB object ids are modelled as naturals;
optional (non-required) fields as `Option`; Python exceptions as `Except`.
-/

set_option autoImplicit false

namespace SmashRanks

/-- A MongoDB ObjectId, abstracted to a natural number key. -/
abbrev ObjectId := Nat

/-- Embedded document `Match`: a result between two resolved players
(`winner`/`loser` are required ObjectIDFields). -/
structure Match where
  winner : ObjectId
  loser : ObjectId
deriving Repr, DecidableEq

namespace Match

/-- `Match.contains_players`: the unordered pair check from the source. -/
def contains_players (m : Match) (player1 player2 : ObjectId) : Bool :=
  (m.winner = player1 ∧ m.loser = player2) ∨ (m.winner = player2 ∧ m.loser = player1)

/-- `Match.contains_player` from the source. -/
def contains_player (m : Match) (player_id : ObjectId) : Bool :=
  m.winner = player_id ∨ m.loser = player_id

/-- `Match.get_opposing_player_id`: returns the loser when asked about the
winner, the winner when asked about the loser, `None` otherwise. -/
def get_opposing_player_id (m : Match) (player_id : ObjectId) : Option ObjectId :=
  if m.winner = player_id then some m.loser
  else if m.loser = player_id then some m.winner
  else none

end Match

/-- Embedded document `AliasMapping`: `player_id` is a non-required
ObjectIDField (may be null), `player_alias` a required string. -/
structure AliasMapping where
  player_id : Option ObjectId
  player_alias : String
deriving Repr, DecidableEq

/-- Embedded document `AliasMatch`: a match between two scraped alias strings. -/
structure AliasMatch where
  winner : String
  loser : String
deriving Repr, DecidableEq

/-- Embedded document `Rating`: a stored (mu, sigma) skill estimate. -/
structure Rating where
  mu : Float
  sigma : Float
deriving Repr

/-- The external trueskill library's rating object, an excluded collaborator:
per the spec it exposes mean/uncertainty fields; it is modelled as storing the
`mu` and `sigma` it is constructed with. -/
structure TrueskillRating where
  mu : Float
  sigma : Float
deriving Repr

namespace Rating

/-- `Rating.trueskill_rating`: builds the external rating object from the
stored fields. -/
def trueskill_rating (r : Rating) : TrueskillRating :=
  { mu := r.mu, sigma := r.sigma }

/-- `Rating.from_trueskill`: stores the external rating object's fields. -/
def from_trueskill (t : TrueskillRating) : Rating :=
  { mu := t.mu, sigma := t.sigma }

end Rating

/-- Top-level document `Player` (fields as declared in the source; `ratings`
is a string-keyed map of `Rating`, modelled as an association list). -/
structure Player where
  id : ObjectId
  name : String
  aliases : List String
  ratings : List (String × Rating)
  regions : List String
  merged : Bool
  merge_parent : Option ObjectId
  merge_children : Option (List ObjectId)
deriving Repr

namespace Player

/-- `Player.post_init` as written in the source: if `merge_children` is falsy
(null or the empty list) it is set to `[self.id]`; otherwise it is left
untouched. -/
def post_init (p : Player) : Player :=
  match p.merge_children with
  | none => { p with merge_children := some [p.id] }
  | some [] => { p with merge_children := some [p.id] }
  | some (_ :: _) => p

end Player

/-- Errors raised by `Tournament.replace_player`. -/
inductive ReplaceError where
  | typeError
deriving Repr, DecidableEq

/-- Errors raised by `Tournament.from_pending_tournament`: a `ValueError` for
an unresolvable alias, or a `TypeError` from iterating a null
`alias_to_id_map`. -/
inductive PromoteError where
  | aliasNotFound (al : String)
  | typeError
deriving Repr, DecidableEq

/-- Top-level document `Tournament` (finalized event). `date`, `url`, `raw`
are non-required fields. -/
structure Tournament where
  id : ObjectId
  name : String
  type : String
  date : Option Nat
  regions : List String
  url : Option String
  raw : Option String
  «matches» : List Match
  players : List ObjectId
  orig_ids : List ObjectId
deriving Repr, DecidableEq

/-- Top-level document `PendingTournament`: same shape as `Tournament` but
with alias strings, plus the `alias_to_id_map` list (nullable, as the source
lazily initializes it). -/
structure PendingTournament where
  id : ObjectId
  name : String
  type : String
  date : Option Nat
  regions : List String
  url : Option String
  raw : Option String
  «matches» : List AliasMatch
  players : List String
  alias_to_id_map : Option (List AliasMapping)
deriving Repr, DecidableEq

/-- The dict built at the top of `from_pending_tournament`:
`dict([(entry.player_alias, entry.player_id) for entry in map if entry.player_id is not None])`.
Entries with a null id are skipped; on duplicate keys the later entry wins
(Python dict construction). -/
def buildAliasToIdEntries (l : List AliasMapping) : List (String × ObjectId) :=
  l.filterMap fun e => e.player_id.map fun i => (e.player_alias, i)

/-- Python dict lookup over the association pairs: the last binding of a key
wins, `none` when the key is absent. -/
def dictLookup (entries : List (String × ObjectId)) (k : String) : Option ObjectId :=
  match entries with
  | [] => none
  | (a, i) :: rest =>
    match dictLookup rest k with
    | some r => some r
    | none => if a = k then some i else none

/-- `_get_player_id_from_map_or_throw` from the source: dict membership test
then lookup, raising `ValueError` when the alias is absent. -/
def getPlayerIdFromMapOrThrow (entries : List (String × ObjectId)) (al : String) :
    Except PromoteError ObjectId :=
  match dictLookup entries al with
  | some i => .ok i
  | none => .error (.aliasNotFound al)

/-- The players list comprehension of `from_pending_tournament`: resolve each
alias left to right, raising at the first unresolvable one. -/
def resolveAll (entries : List (String × ObjectId)) :
    List String → Except PromoteError (List ObjectId)
  | [] => .ok []
  | a :: rest =>
    match getPlayerIdFromMapOrThrow entries a with
    | .error e => .error e
    | .ok i =>
      match resolveAll entries rest with
      | .error e => .error e
      | .ok is => .ok (i :: is)

/-- The matches loop of `from_pending_tournament`: for each `AliasMatch`
resolve the winner alias then the loser alias, raising at the first
unresolvable one. -/
def resolveMatches (entries : List (String × ObjectId)) :
    List AliasMatch → Except PromoteError (List Match)
  | [] => .ok []
  | am :: rest =>
    match getPlayerIdFromMapOrThrow entries am.winner with
    | .error e => .error e
    | .ok w =>
      match getPlayerIdFromMapOrThrow entries am.loser with
      | .error e => .error e
      | .ok l =>
        match resolveMatches entries rest with
        | .error e => .error e
        | .ok ms => .ok ({ winner := w, loser := l } :: ms)

namespace Tournament

/-- `Tournament.replace_player` from the source: `TypeError` when either
argument is `None`; silent no-op when the removed player's id is not in
`players`; otherwise remove the first occurrence of the removed id from
`players`, append the added id, and rewrite every match's winner/loser. -/
def replace_player (t : Tournament) (player_to_remove player_to_add : Option Player) :
    Except ReplaceError Tournament :=
  match player_to_remove, player_to_add with
  | some pr, some pa =>
    let player_to_remove_id := pr.id
    let player_to_add_id := pa.id
    if player_to_remove_id ∈ t.players then
      .ok { t with
        «matches» := t.matches.map fun m =>
          { winner := if m.winner = player_to_remove_id then player_to_add_id else m.winner,
            loser := if m.loser = player_to_remove_id then player_to_add_id else m.loser },
        players := t.players.erase player_to_remove_id ++ [player_to_add_id] }
    else
      .ok t
  | _, _ => .error .typeError

/-- `Tournament.from_pending_tournament` from the source: build the alias→id
dict (skipping null ids), resolve the players list, then the matches, and
construct the tournament with `players` and `orig_ids` both set to the
resolved player list. Iterating a null `alias_to_id_map` is a `TypeError`
in Python. -/
def from_pending_tournament (pt : PendingTournament) : Except PromoteError Tournament :=
  match pt.alias_to_id_map with
  | none => .error .typeError
  | some l =>
    let entries := buildAliasToIdEntries l
    match resolveAll entries pt.players with
    | .error e => .error e
    | .ok players =>
      match resolveMatches entries pt.matches with
      | .error e => .error e
      | .ok ms =>
        .ok { id := pt.id, name := pt.name, type := pt.type, date := pt.date,
              regions := pt.regions, url := pt.url, raw := pt.raw,
              «matches» := ms, players := players, orig_ids := players }

end Tournament

namespace PendingTournament

/-- The for-loop body of `set_alias_id_mapping`: overwrite the first mapping
whose alias matches and stop; if none matches, append a fresh mapping. -/
def setAliasGo (al : String) (i : Option ObjectId) :
    List AliasMapping → List AliasMapping
  | [] => [{ player_id := i, player_alias := al }]
  | m :: rest =>
    if m.player_alias = al then { player_id := i, player_alias := al } :: rest
    else m :: setAliasGo al i rest

/-- `PendingTournament.set_alias_id_mapping`: lazily initialize the null map
to `[]`, then upsert. -/
def set_alias_id_mapping (pt : PendingTournament) (al : String) (i : Option ObjectId) :
    PendingTournament :=
  { pt with alias_to_id_map := some (setAliasGo al i (pt.alias_to_id_map.getD [])) }

/-- The for-loop of `delete_alias_id_mapping`: remove and return the first
mapping whose alias matches; return `none` (and the unchanged list) when none
matches. -/
def deleteGo (al : String) :
    List AliasMapping → Option AliasMapping × List AliasMapping
  | [] => (none, [])
  | m :: rest =>
    if m.player_alias = al then (some m, rest)
    else
      let r := deleteGo al rest
      (r.1, m :: r.2)

/-- `PendingTournament.delete_alias_id_mapping`: lazily initialize the null
map to `[]`, then remove and return the first mapping with the given alias
(`none` when absent). Returns the removed mapping (if any) together with the
updated document. -/
def delete_alias_id_mapping (pt : PendingTournament) (al : String) :
    Option AliasMapping × PendingTournament :=
  let r := deleteGo al (pt.alias_to_id_map.getD [])
  (r.1, { pt with alias_to_id_map := some r.2 })

end PendingTournament

/-- All alias strings a promotion must resolve: the pending players plus each
pending match's winner and loser. -/
def pendingAliases (pt : PendingTournament) : List String :=
  pt.players ++ pt.matches.flatMap fun am => [am.winner, am.loser]

/-- At most one `AliasMapping` entry per alias string. -/
def atMostOnePerAlias (l : List AliasMapping) : Prop :=
  l.Pairwise fun x y => x.player_alias ≠ y.player_alias

/-! ### Concrete sample documents used to exercise the definitions -/

/-- A player with the given id and no optional data. -/
def samplePlayer (i : ObjectId) : Player :=
  { id := i, name := "p", aliases := [], ratings := [], regions := [],
    merged := false, merge_parent := none, merge_children := none }

/-- The tournament of the spec's `replace_player` example: players A=1, B=2,
C=3 and the single match A beats B. -/
def exTournament : Tournament :=
  { id := 0, name := "t", type := "tio", date := none, regions := [], url := none,
    raw := none, «matches» := [{ winner := 1, loser := 2 }], players := [1, 2, 3],
    orig_ids := [1, 2, 3] }

/-- A pending tournament with an initialized empty alias map. -/
def emptyPending : PendingTournament :=
  { id := 0, name := "t", type := "tio", date := none, regions := [], url := none,
    raw := none, «matches» := [], players := [], alias_to_id_map := some [] }

/-- A pending tournament whose single player alias has a map entry, but one
whose `player_id` is null. -/
def badPending : PendingTournament :=
  { id := 0, name := "t", type := "tio", date := none, regions := [], url := none,
    raw := none, «matches» := [], players := ["a"],
    alias_to_id_map := some [{ player_id := none, player_alias := "a" }] }

/-- A fully resolvable pending tournament: two players and one match, each
alias mapped to an assigned id. -/
def resolvablePending : PendingTournament :=
  { id := 0, name := "t", type := "tio", date := none, regions := [], url := none,
    raw := none, «matches» := [{ winner := "a", loser := "b" }], players := ["a", "b"],
    alias_to_id_map := some [{ player_id := some 10, player_alias := "a" },
                             { player_id := some 20, player_alias := "b" }] }

/-- A player constructed with a non-empty `merge_children` list that does not
contain its own id. -/
def mergeBugPlayer : Player :=
  { id := 1, name := "p", aliases := [], ratings := [], regions := [],
    merged := false, merge_parent := none, merge_children := some [2] }

/-! ### Claim theorems -/

/-- C7: `post_init` only checks falsiness of `merge_children`, so a player
constructed with `merge_children = [2]` and `id = 1` keeps a `merge_children`
list that does not contain its own id, contradicting the invariant (and the
source's own comment, which says the list is initialized to contain the id if
it does not already). -/
theorem post_init_merge_children_bug :
    mergeBugPlayer.post_init.merge_children = some [2] ∧
    mergeBugPlayer.id ∉ mergeBugPlayer.post_init.merge_children.getD [] := by
  decide

/-- C8: storing an external trueskill rating with `from_trueskill` and
rebuilding the external object with `trueskill_rating` reproduces the original
mu and sigma exactly (both conversions only copy the two fields). -/
theorem trueskill_roundtrip_exact (t : TrueskillRating) :
    (Rating.from_trueskill t).trueskill_rating.mu = t.mu ∧
    (Rating.from_trueskill t).trueskill_rating.sigma = t.sigma ∧
    (Rating.from_trueskill t).trueskill_rating = t :=
  ⟨rfl, rfl, rfl⟩

/-- C9: `get_opposing_player_id` returns the loser when given the winner, the
winner when given the loser, and `none` when the player is in neither field. -/
theorem get_opposing_player_id_spec (m : Match) (p : ObjectId) :
    (m.winner = p → m.get_opposing_player_id p = some m.loser) ∧
    (m.loser = p → m.get_opposing_player_id p = some m.winner) ∧
    (m.winner ≠ p → m.loser ≠ p → m.get_opposing_player_id p = none) := by
  refine ⟨fun h => ?_, fun h => ?_, fun h1 h2 => ?_⟩
  · simp [Match.get_opposing_player_id, h]
  · by_cases hw : m.winner = p
    · have hwl : m.winner = m.loser := hw.trans h.symm
      simp [Match.get_opposing_player_id, hw, hwl, h]
    · simp [Match.get_opposing_player_id, hw, h]
  · simp [Match.get_opposing_player_id, h1, h2]

/-- C9 witness: in the match 1 beats 2, the opponent of player 1 is player 2. -/
theorem get_opposing_player_id_witness :
    Match.get_opposing_player_id { winner := 1, loser := 2 } 1 = some 2 :=
  (get_opposing_player_id_spec { winner := 1, loser := 2 } 1).1 rfl

/-- C10: `replace_player` with a `None` argument (either position) raises
`TypeError`; in the embedding the error result carries no updated tournament,
so the players list and matches are untouched. -/
theorem replace_player_none_type_error (t : Tournament) (op : Option Player) :
    t.replace_player none op = .error .typeError ∧
    t.replace_player op none = .error .typeError := by
  constructor
  · cases op <;> rfl
  · cases op <;> rfl

/-- C4: when the removed player's id is not in the players list,
`replace_player` returns normally and the tournament (players and every
match's winner/loser) is unchanged. -/
theorem replace_player_absent_noop (t : Tournament) (pr pa : Player)
    (h : pr.id ∉ t.players) :
    t.replace_player (some pr) (some pa) = .ok t := by
  simp [Tournament.replace_player, h]

/-- C4 witness: removing the absent player 5 from the sample tournament is a
no-op. -/
theorem replace_player_absent_noop_witness :
    exTournament.replace_player (some (samplePlayer 5)) (some (samplePlayer 4)) =
      .ok exTournament :=
  replace_player_absent_noop exTournament (samplePlayer 5) (samplePlayer 4) (by decide)

/-- C3 counterexample: on players [1,2,3] with the match 1 beats 2, replacing
player 1 by player 4 yields players [2,3,4] (first occurrence removed, new id
appended at the end), not the claimed in-place list [4,2,3]. -/
theorem replace_player_order_counterexample :
    exTournament.replace_player (some (samplePlayer 1)) (some (samplePlayer 4)) =
      .ok { exTournament with
            «matches» := [{ winner := 4, loser := 2 }],
            players := [2, 3, 4] } ∧
    ([2, 3, 4] : List ObjectId) ≠ [4, 2, 3] := by
  exact ⟨rfl, by decide⟩

/-- C3 (amended): when the removed player's id is present, `replace_player`
deletes its first occurrence from the players list, appends the added id at
the end, and replaces every occurrence of the removed id in every match's
winner and loser fields. -/
theorem replace_player_present_spec (t : Tournament) (pr pa : Player)
    (h : pr.id ∈ t.players) :
    t.replace_player (some pr) (some pa) = .ok { t with
      «matches» := t.matches.map fun m =>
        { winner := if m.winner = pr.id then pa.id else m.winner,
          loser := if m.loser = pr.id then pa.id else m.loser },
      players := t.players.erase pr.id ++ [pa.id] } := by
  simp [Tournament.replace_player, h]

/-- C3 witness: the spec's example evaluated — players [1,2,3] with the match
1 beats 2 become players [2,3,4] with the match 4 beats 2. -/
theorem replace_player_present_witness :
    exTournament.replace_player (some (samplePlayer 1)) (some (samplePlayer 4)) =
      .ok { exTournament with
            «matches» := [{ winner := 4, loser := 2 }],
            players := [2, 3, 4] } :=
  replace_player_present_spec exTournament (samplePlayer 1) (samplePlayer 4) (by decide)

/-- When no mapping in the list carries the alias, the upsert loop appends a
fresh mapping at the end. -/
theorem setAliasGo_append (al : String) (i : Option ObjectId) (l : List AliasMapping)
    (h : ∀ m ∈ l, m.player_alias ≠ al) :
    PendingTournament.setAliasGo al i l = l ++ [{ player_id := i, player_alias := al }] := by
  induction l with
  | nil => rfl
  | cons m rest ih =>
    have hm : m.player_alias ≠ al := h m (List.mem_cons_self m rest)
    simp [PendingTournament.setAliasGo, hm,
      ih fun x hx => h x (List.mem_cons_of_mem m hx)]

/-- The upsert loop overwrites the first mapping carrying the alias in place
and leaves everything else untouched. -/
theorem setAliasGo_replace (al : String) (i : Option ObjectId) (l₁ : List AliasMapping)
    (m : AliasMapping) (l₂ : List AliasMapping) (hm : m.player_alias = al)
    (h₁ : ∀ x ∈ l₁, x.player_alias ≠ al) :
    PendingTournament.setAliasGo al i (l₁ ++ m :: l₂) =
      l₁ ++ { player_id := i, player_alias := al } :: l₂ := by
  induction l₁ with
  | nil => simp [PendingTournament.setAliasGo, hm]
  | cons x rest ih =>
    have hx : x.player_alias ≠ al := h₁ x (List.mem_cons_self x rest)
    simp [PendingTournament.setAliasGo, hx,
      ih fun y hy => h₁ y (List.mem_cons_of_mem x hy)]

/-- Every alias string present after the upsert loop was either the upserted
alias or already present. -/
theorem mem_setAliasGo (al : String) (i : Option ObjectId) (l : List AliasMapping)
    (y : AliasMapping) (hy : y ∈ PendingTournament.setAliasGo al i l) :
    y.player_alias = al ∨ ∃ x ∈ l, y.player_alias = x.player_alias := by
  induction l with
  | nil =>
    simp [PendingTournament.setAliasGo] at hy
    exact Or.inl (by rw [hy])
  | cons m rest ih =>
    by_cases hm : m.player_alias = al
    · rw [show PendingTournament.setAliasGo al i (m :: rest) =
          { player_id := i, player_alias := al } :: rest from by
            simp [PendingTournament.setAliasGo, hm]] at hy
      rcases List.mem_cons.1 hy with h | h
      · exact Or.inl (by rw [h])
      · exact Or.inr ⟨y, List.mem_cons_of_mem m h, rfl⟩
    · rw [show PendingTournament.setAliasGo al i (m :: rest) =
          m :: PendingTournament.setAliasGo al i rest from by
            simp [PendingTournament.setAliasGo, hm]] at hy
      rcases List.mem_cons.1 hy with h | h
      · exact Or.inr ⟨m, List.mem_cons_self m rest, by rw [h]⟩
      · rcases ih h with h' | ⟨x, hx, hxx⟩
        · exact Or.inl h'
        · exact Or.inr ⟨x, List.mem_cons_of_mem m hx, hxx⟩

/-- The upsert loop preserves alias-distinctness of the mapping list. -/
theorem setAliasGo_pairwise (al : String) (i : Option ObjectId) (l : List AliasMapping)
    (h : l.Pairwise fun x y => x.player_alias ≠ y.player_alias) :
    (PendingTournament.setAliasGo al i l).Pairwise
      fun x y => x.player_alias ≠ y.player_alias := by
  induction l with
  | nil => simp [PendingTournament.setAliasGo]
  | cons m rest ih =>
    rcases List.pairwise_cons.1 h with ⟨hhead, htail⟩
    by_cases hm : m.player_alias = al
    · rw [show PendingTournament.setAliasGo al i (m :: rest) =
          { player_id := i, player_alias := al } :: rest from by
            simp [PendingTournament.setAliasGo, hm]]
      refine List.pairwise_cons.2 ⟨?_, htail⟩
      intro y hy contra
      exact hhead y hy (by rw [hm]; exact contra)
    · rw [show PendingTournament.setAliasGo al i (m :: rest) =
          m :: PendingTournament.setAliasGo al i rest from by
            simp [PendingTournament.setAliasGo, hm]]
      refine List.pairwise_cons.2 ⟨?_, ih htail⟩
      intro y hy
      rcases mem_setAliasGo al i rest y hy with h' | ⟨x, hx, hxx⟩
      · rw [h']; exact hm
      · rw [hxx]; exact hhead x hx

/-- C5: `set_alias_id_mapping` is an upsert — it appends a fresh mapping when
the alias is absent, overwrites (in place) the first mapping with the alias
when present, and preserves the at-most-one-entry-per-alias invariant. -/
theorem set_alias_id_mapping_spec (pt : PendingTournament) (al : String)
    (i : Option ObjectId) :
    ((∀ m ∈ pt.alias_to_id_map.getD [], m.player_alias ≠ al) →
      (pt.set_alias_id_mapping al i).alias_to_id_map =
        some (pt.alias_to_id_map.getD [] ++ [{ player_id := i, player_alias := al }])) ∧
    (∀ l₁ m l₂, pt.alias_to_id_map.getD [] = l₁ ++ m :: l₂ → m.player_alias = al →
      (∀ x ∈ l₁, x.player_alias ≠ al) →
      (pt.set_alias_id_mapping al i).alias_to_id_map =
        some (l₁ ++ { player_id := i, player_alias := al } :: l₂)) ∧
    (atMostOnePerAlias (pt.alias_to_id_map.getD []) →
      atMostOnePerAlias ((pt.set_alias_id_mapping al i).alias_to_id_map.getD [])) := by
  refine ⟨fun h => ?_, fun l₁ m l₂ hsplit hm h₁ => ?_, fun h => ?_⟩
  · simp [PendingTournament.set_alias_id_mapping, setAliasGo_append al i _ h]
  · simp [PendingTournament.set_alias_id_mapping, hsplit,
      setAliasGo_replace al i l₁ m l₂ hm h₁]
  · simpa [PendingTournament.set_alias_id_mapping, atMostOnePerAlias] using
      setAliasGo_pairwise al i _ h

/-- C5 witness: starting from the empty list, upserting ("foo", 1) yields the
single entry ("foo", 1), and upserting ("foo", 2) on top of it overwrites it,
yielding the single entry ("foo", 2). -/
theorem set_alias_id_mapping_witness :
    (emptyPending.set_alias_id_mapping "foo" (some 1)).alias_to_id_map =
      some [{ player_id := some 1, player_alias := "foo" }] ∧
    ((emptyPending.set_alias_id_mapping "foo" (some 1)).set_alias_id_mapping "foo"
        (some 2)).alias_to_id_map =
      some [{ player_id := some 2, player_alias := "foo" }] := by
  constructor
  · exact (set_alias_id_mapping_spec emptyPending "foo" (some 1)).1 (by simp [emptyPending])
  · exact (set_alias_id_mapping_spec (emptyPending.set_alias_id_mapping "foo" (some 1))
      "foo" (some 2)).2.1 [] { player_id := some 1, player_alias := "foo" } [] rfl rfl
      (by simp)

/-- When no mapping in the list carries the alias, the delete loop finds
nothing and leaves the list untouched. -/
theorem deleteGo_not_found (al : String) (l : List AliasMapping)
    (h : ∀ m ∈ l, m.player_alias ≠ al) :
    PendingTournament.deleteGo al l = (none, l) := by
  induction l with
  | nil => rfl
  | cons m rest ih =>
    have hm : m.player_alias ≠ al := h m (List.mem_cons_self m rest)
    simp [PendingTournament.deleteGo, hm,
      ih fun x hx => h x (List.mem_cons_of_mem m hx)]

/-- The delete loop removes and returns exactly the first mapping carrying
the alias. -/
theorem deleteGo_found (al : String) (l₁ : List AliasMapping) (m : AliasMapping)
    (l₂ : List AliasMapping) (hm : m.player_alias = al)
    (h₁ : ∀ x ∈ l₁, x.player_alias ≠ al) :
    PendingTournament.deleteGo al (l₁ ++ m :: l₂) = (some m, l₁ ++ l₂) := by
  induction l₁ with
  | nil => simp [PendingTournament.deleteGo, hm]
  | cons x rest ih =>
    have hx : x.player_alias ≠ al := h₁ x (List.mem_cons_self x rest)
    simp [PendingTournament.deleteGo, hx,
      ih fun y hy => h₁ y (List.mem_cons_of_mem x hy)]

/-- C6: `delete_alias_id_mapping` removes and returns the first mapping whose
alias matches; when no mapping matches (in particular on the empty list) it
returns `none` and leaves the mapping list unchanged. -/
theorem delete_alias_id_mapping_spec (pt : PendingTournament) (al : String) :
    ((∀ m ∈ pt.alias_to_id_map.getD [], m.player_alias ≠ al) →
      pt.delete_alias_id_mapping al =
        (none, { pt with alias_to_id_map := some (pt.alias_to_id_map.getD []) })) ∧
    (∀ l₁ m l₂, pt.alias_to_id_map.getD [] = l₁ ++ m :: l₂ → m.player_alias = al →
      (∀ x ∈ l₁, x.player_alias ≠ al) →
      pt.delete_alias_id_mapping al =
        (some m, { pt with alias_to_id_map := some (l₁ ++ l₂) })) := by
  refine ⟨fun h => ?_, fun l₁ m l₂ hsplit hm h₁ => ?_⟩
  · simp [PendingTournament.delete_alias_id_mapping, deleteGo_not_found al _ h]
  · simp [PendingTournament.delete_alias_id_mapping, hsplit,
      deleteGo_found al l₁ m l₂ hm h₁]

/-- C6 witness: deleting the absent alias "foo" from a pending tournament with
an empty mapping list returns `none` and leaves the document unchanged. -/
theorem delete_alias_id_mapping_witness :
    emptyPending.delete_alias_id_mapping "foo" = (none, emptyPending) :=
  (delete_alias_id_mapping_spec emptyPending "foo").1 (by simp [emptyPending])

/-- A cons on the association pairs resolves to `none` exactly when the tail
does and the head's key differs (the later binding wins on duplicates). -/
theorem dictLookup_cons_eq_none (p : String × ObjectId) (E : List (String × ObjectId))
    (a : String) :
    dictLookup (p :: E) a = none ↔ dictLookup E a = none ∧ p.1 ≠ a := by
  cases h : dictLookup E a with
  | some r => simp [dictLookup, h]
  | none => by_cases hp : p.1 = a <;> simp [dictLookup, h, hp]

/-- The dict built by `from_pending_tournament` has no binding for an alias
exactly when every `AliasMapping` entry for that alias has a null id. -/
theorem dictLookup_buildEntries_none (l : List AliasMapping) (a : String) :
    dictLookup (buildAliasToIdEntries l) a = none ↔
      ∀ m ∈ l, m.player_alias = a → m.player_id = none := by
  induction l with
  | nil => simp [buildAliasToIdEntries, dictLookup]
  | cons e rest ih =>
    cases hpid : e.player_id with
    | none =>
      rw [show buildAliasToIdEntries (e :: rest) = buildAliasToIdEntries rest from by
        simp [buildAliasToIdEntries, hpid], ih]
      constructor
      · intro h m hm
        rcases List.mem_cons.1 hm with rfl | hm'
        · exact fun _ => hpid
        · exact h m hm'
      · intro h m hm
        exact h m (List.mem_cons_of_mem e hm)
    | some i =>
      rw [show buildAliasToIdEntries (e :: rest) =
          (e.player_alias, i) :: buildAliasToIdEntries rest from by
        simp [buildAliasToIdEntries, hpid], dictLookup_cons_eq_none, ih]
      constructor
      · rintro ⟨hrest, hne⟩ m hm
        rcases List.mem_cons.1 hm with rfl | hm'
        · exact fun ha => absurd ha hne
        · exact hrest m hm'
      · intro h
        refine ⟨fun m hm => h m (List.mem_cons_of_mem e hm), fun ha => ?_⟩
        have h2 := h e (List.mem_cons_self e rest) ha
        rw [hpid] at h2
        exact Option.some_ne_none i h2

/-- The players resolution loop succeeds exactly when every alias in the list
has a binding in the dict. -/
theorem resolveAll_ok_iff (E : List (String × ObjectId)) (l : List String) :
    (∃ xs, resolveAll E l = .ok xs) ↔ ∀ a ∈ l, dictLookup E a ≠ none := by
  induction l with
  | nil => simp [resolveAll]
  | cons a rest ih =>
    cases h : dictLookup E a with
    | none =>
      have heq : resolveAll E (a :: rest) = .error (.aliasNotFound a) := by
        simp [resolveAll, getPlayerIdFromMapOrThrow, h]
      constructor
      · rintro ⟨xs, hxs⟩
        rw [heq] at hxs
        exact Except.noConfusion hxs
      · intro hall
        exact absurd h (hall a (List.mem_cons_self a rest))
    | some i =>
      have hget : getPlayerIdFromMapOrThrow E a = .ok i := by
        simp [getPlayerIdFromMapOrThrow, h]
      cases hr : resolveAll E rest with
      | error e =>
        have heq : resolveAll E (a :: rest) = .error e := by
          simp [resolveAll, hget, hr]
        constructor
        · rintro ⟨xs, hxs⟩
          rw [heq] at hxs
          exact Except.noConfusion hxs
        · intro hall
          rcases ih.2 (fun b hb => hall b (List.mem_cons_of_mem a hb)) with ⟨xs, hxs⟩
          rw [hr] at hxs
          exact Except.noConfusion hxs
      | ok is =>
        have heq : resolveAll E (a :: rest) = .ok (i :: is) := by
          simp [resolveAll, hget, hr]
        constructor
        · intro _ b hb
          rcases List.mem_cons.1 hb with rfl | hb'
          · rw [h]; exact Option.some_ne_none i
          · exact ih.1 ⟨is, hr⟩ b hb'
        · intro _
          exact ⟨i :: is, heq⟩

/-- When every alias in the list resolves, the resolution loop returns the
aliases mapped through the dict, in order and with the same length. -/
theorem resolveAll_map (E : List (String × ObjectId)) (l : List String)
    (h : ∀ a ∈ l, dictLookup E a ≠ none) :
    ∃ xs, resolveAll E l = .ok xs ∧ xs.map some = l.map (dictLookup E) ∧
      xs.length = l.length := by
  induction l with
  | nil => exact ⟨[], rfl, rfl, rfl⟩
  | cons a rest ih =>
    cases hd : dictLookup E a with
    | none => exact absurd hd (h a (List.mem_cons_self a rest))
    | some i =>
      rcases ih (fun b hb => h b (List.mem_cons_of_mem a hb)) with ⟨xs, hxs, hmapeq, hlen⟩
      refine ⟨i :: xs, ?_, ?_, ?_⟩
      · simp [resolveAll, getPlayerIdFromMapOrThrow, hd, hxs]
      · simp [hmapeq, hd]
      · simp [hlen]

/-- The match resolution loop succeeds exactly when every match's winner and
loser aliases have bindings in the dict. -/
theorem resolveMatches_ok_iff (E : List (String × ObjectId)) (ms : List AliasMatch) :
    (∃ out, resolveMatches E ms = .ok out) ↔
      ∀ am ∈ ms, dictLookup E am.winner ≠ none ∧ dictLookup E am.loser ≠ none := by
  induction ms with
  | nil => simp [resolveMatches]
  | cons am rest ih =>
    cases hw : dictLookup E am.winner with
    | none =>
      have heq : resolveMatches E (am :: rest) = .error (.aliasNotFound am.winner) := by
        simp [resolveMatches, getPlayerIdFromMapOrThrow, hw]
      constructor
      · rintro ⟨out, hout⟩
        rw [heq] at hout
        exact Except.noConfusion hout
      · intro hall
        exact absurd hw (hall am (List.mem_cons_self am rest)).1
    | some w =>
      have hgw : getPlayerIdFromMapOrThrow E am.winner = .ok w := by
        simp [getPlayerIdFromMapOrThrow, hw]
      cases hl : dictLookup E am.loser with
      | none =>
        have heq : resolveMatches E (am :: rest) = .error (.aliasNotFound am.loser) := by
          simp [resolveMatches, getPlayerIdFromMapOrThrow, hw, hl]
        constructor
        · rintro ⟨out, hout⟩
          rw [heq] at hout
          exact Except.noConfusion hout
        · intro hall
          exact absurd hl (hall am (List.mem_cons_self am rest)).2
      | some lo =>
        have hgl : getPlayerIdFromMapOrThrow E am.loser = .ok lo := by
          simp [getPlayerIdFromMapOrThrow, hl]
        cases hr : resolveMatches E rest with
        | error e =>
          have heq : resolveMatches E (am :: rest) = .error e := by
            simp [resolveMatches, hgw, hgl, hr]
          constructor
          · rintro ⟨out, hout⟩
            rw [heq] at hout
            exact Except.noConfusion hout
          · intro hall
            rcases ih.2 (fun x hx => hall x (List.mem_cons_of_mem am hx)) with ⟨out, hout⟩
            rw [hr] at hout
            exact Except.noConfusion hout
        | ok outs =>
          have heq : resolveMatches E (am :: rest) =
              .ok ({ winner := w, loser := lo } :: outs) := by
            simp [resolveMatches, hgw, hgl, hr]
          constructor
          · intro _ x hx
            rcases List.mem_cons.1 hx with rfl | hx'
            · exact ⟨by rw [hw]; exact Option.some_ne_none w,
                     by rw [hl]; exact Option.some_ne_none lo⟩
            · exact ih.1 ⟨outs, hr⟩ x hx'
          · intro _
            exact ⟨_, heq⟩

/-- Promotion succeeds exactly when every pending alias (player or match
winner/loser) has a binding in the dict built from the alias map. -/
theorem from_pending_isOk_iff (pt : PendingTournament) (l : List AliasMapping)
    (hmap : pt.alias_to_id_map = some l) :
    (∃ t, Tournament.from_pending_tournament pt = .ok t) ↔
      ∀ a ∈ pendingAliases pt, dictLookup (buildAliasToIdEntries l) a ≠ none := by
  have hsplit : ∀ a, a ∈ pendingAliases pt ↔
      (a ∈ pt.players ∨ ∃ am ∈ pt.matches, a = am.winner ∨ a = am.loser) := by
    intro a
    simp only [pendingAliases, List.mem_append, List.mem_flatMap, List.mem_cons,
      List.mem_singleton, List.not_mem_nil, or_false]
  cases hra : resolveAll (buildAliasToIdEntries l) pt.players with
  | error e =>
    have heq : Tournament.from_pending_tournament pt = .error e := by
      simp [Tournament.from_pending_tournament, hmap, hra]
    constructor
    · rintro ⟨t, ht⟩
      rw [heq] at ht
      exact Except.noConfusion ht
    · intro hall
      rcases (resolveAll_ok_iff (buildAliasToIdEntries l) pt.players).2
          (fun a ha => hall a ((hsplit a).2 (Or.inl ha))) with ⟨xs, hxs⟩
      rw [hra] at hxs
      exact Except.noConfusion hxs
  | ok xs =>
    cases hrm : resolveMatches (buildAliasToIdEntries l) pt.matches with
    | error e =>
      have heq : Tournament.from_pending_tournament pt = .error e := by
        simp [Tournament.from_pending_tournament, hmap, hra, hrm]
      constructor
      · rintro ⟨t, ht⟩
        rw [heq] at ht
        exact Except.noConfusion ht
      · intro hall
        rcases (resolveMatches_ok_iff (buildAliasToIdEntries l) pt.matches).2
            (fun am ham => ⟨hall am.winner ((hsplit am.winner).2
                (Or.inr ⟨am, ham, Or.inl rfl⟩)),
              hall am.loser ((hsplit am.loser).2 (Or.inr ⟨am, ham, Or.inr rfl⟩))⟩)
          with ⟨out, hout⟩
        rw [hrm] at hout
        exact Except.noConfusion hout
    | ok ms =>
      have heq : Tournament.from_pending_tournament pt =
          .ok { id := pt.id, name := pt.name, type := pt.type, date := pt.date,
                regions := pt.regions, url := pt.url, raw := pt.raw,
                «matches» := ms, players := xs, orig_ids := xs } := by
        simp [Tournament.from_pending_tournament, hmap, hra, hrm]
      constructor
      · intro _ a ha
        rcases (hsplit a).1 ha with hp | ⟨am, ham, hwl⟩
        · exact (resolveAll_ok_iff (buildAliasToIdEntries l) pt.players).1 ⟨xs, hra⟩ a hp
        · have hok := (resolveMatches_ok_iff (buildAliasToIdEntries l) pt.matches).1
            ⟨ms, hrm⟩ am ham
          rcases hwl with rfl | rfl
          · exact hok.1
          · exact hok.2
      · intro _
        exact ⟨_, heq⟩

/-- C1 (amended): promotion fails (raising a resolution error, producing no
tournament) exactly when some pending player or match alias has no
`alias_to_id_map` entry with an assigned (non-null) id; entries whose
`player_id` is null are skipped when the resolution dict is built. Stated for
pending tournaments whose `alias_to_id_map` field is present (non-null). -/
theorem from_pending_tournament_fails_iff (pt : PendingTournament)
    (l : List AliasMapping) (hmap : pt.alias_to_id_map = some l) :
    (∃ e, Tournament.from_pending_tournament pt = .error e) ↔
      ∃ a ∈ pendingAliases pt, ∀ m ∈ l, m.player_alias = a → m.player_id = none := by
  have hdisj : (∃ e, Tournament.from_pending_tournament pt = .error e) ↔
      ¬ ∃ t, Tournament.from_pending_tournament pt = .ok t := by
    cases Tournament.from_pending_tournament pt <;> simp
  rw [hdisj, from_pending_isOk_iff pt l hmap]
  push_neg
  constructor
  · rintro ⟨a, ha, hnone⟩
    exact ⟨a, ha, (dictLookup_buildEntries_none l a).1 hnone⟩
  · rintro ⟨a, ha, hforall⟩
    exact ⟨a, ha, (dictLookup_buildEntries_none l a).2 hforall⟩

/-- C1 witness: promotion of the pending tournament whose only alias "a" is
mapped to a null id raises a resolution error. -/
theorem from_pending_tournament_fails_witness :
    ∃ e, Tournament.from_pending_tournament badPending = .error e :=
  (from_pending_tournament_fails_iff badPending
      [{ player_id := none, player_alias := "a" }] rfl).2
    ⟨"a", by decide, by decide⟩

/-- C1 counterexample to the claim as stated: in `badPending` every pending
alias has an entry in `alias_to_id_map` (so, by the claim, promotion should
not fail), yet `from_pending_tournament` raises a resolution error because
that entry's id is null. -/
theorem from_pending_tournament_entry_counterexample :
    (∀ a ∈ pendingAliases badPending,
      ∃ m ∈ badPending.alias_to_id_map.getD [], m.player_alias = a) ∧
    Tournament.from_pending_tournament badPending = .error (.aliasNotFound "a") :=
  ⟨by decide, rfl⟩

/-- C2: when the alias map is present and every pending player and match
alias resolves through it (entries with null ids being skipped), promotion
returns a tournament whose players list is the pending players list mapped
through the dict (same order, same length) and whose `orig_ids` equals that
same resolved list. -/
theorem from_pending_tournament_resolves (pt : PendingTournament)
    (l : List AliasMapping) (hmap : pt.alias_to_id_map = some l)
    (hres : ∀ a ∈ pendingAliases pt, dictLookup (buildAliasToIdEntries l) a ≠ none) :
    ∃ t, Tournament.from_pending_tournament pt = .ok t ∧
      t.players.map some = pt.players.map (dictLookup (buildAliasToIdEntries l)) ∧
      t.players.length = pt.players.length ∧
      t.orig_ids = t.players := by
  have hp : ∀ a ∈ pt.players, dictLookup (buildAliasToIdEntries l) a ≠ none := by
    intro a ha
    exact hres a (by simp [pendingAliases, ha])
  rcases resolveAll_map (buildAliasToIdEntries l) pt.players hp with ⟨xs, hxs, hmapeq, hlen⟩
  have hm : ∀ am ∈ pt.matches, dictLookup (buildAliasToIdEntries l) am.winner ≠ none ∧
      dictLookup (buildAliasToIdEntries l) am.loser ≠ none := by
    intro am ham
    constructor
    · refine hres am.winner ?_
      refine List.mem_append_right _ (List.mem_flatMap.2 ⟨am, ham, ?_⟩)
      simp
    · refine hres am.loser ?_
      refine List.mem_append_right _ (List.mem_flatMap.2 ⟨am, ham, ?_⟩)
      simp
  rcases (resolveMatches_ok_iff (buildAliasToIdEntries l) pt.matches).2 hm with ⟨out, hout⟩
  refine ⟨{ id := pt.id, name := pt.name, type := pt.type, date := pt.date,
            regions := pt.regions, url := pt.url, raw := pt.raw,
            «matches» := out, players := xs, orig_ids := xs }, ?_, hmapeq, hlen, rfl⟩
  simp [Tournament.from_pending_tournament, hmap, hxs, hout]

/-- C2 witness: the fully-resolvable sample promotes to a tournament with
players [10, 20] in the pending order, and `orig_ids` equal to `players`. -/
theorem from_pending_tournament_resolves_witness :
    ∃ t, Tournament.from_pending_tournament resolvablePending = .ok t ∧
      t.players.map some = resolvablePending.players.map
        (dictLookup (buildAliasToIdEntries
          [{ player_id := some 10, player_alias := "a" },
           { player_id := some 20, player_alias := "b" }])) ∧
      t.players.length = resolvablePending.players.length ∧
      t.orig_ids = t.players :=
  from_pending_tournament_resolves resolvablePending
    [{ player_id := some 10, player_alias := "a" },
     { player_id := some 20, player_alias := "b" }] rfl (by decide)

end SmashRanks
